import Mathlib

/-!
Verification of the retrieval and generation core of the teaching-content
generator: a shallow embedding of `app/services/retriever.py`,
`app/services/generator.py`, `app/services/generate_queries.py` and the
`final_k` policy of `app/main/main_combined.py`, together with proofs of the
specified properties.

External collaborators that are not part of this repository (the MiniLM
embedder, the Pinecone index, the Gemini LLM and Python's `json` module) are
modelled as explicit function parameters (oracles), exactly at the interface
the source code uses them.

Python floats are idealised as exact rationals (ℚ); Python's insertion-ordered
dicts are modelled as insertion-ordered association lists; Python exceptions
are modelled with `Except String`.
-/

namespace TCG

/-- A retrieval hit as handled by `retriever.py`: a Pinecone match
`{"id", "score", "text" (optional)}`.  `text = none` models an absent
`"text"` key. -/
structure Item where
  id : String
  score : ℚ
  text : Option String
deriving DecidableEq

/-- Lookup in an insertion-ordered association list (Python `dict` access /
`key in dict`). -/
def alookup {β : Type} : List (String × β) → String → Option β
  | [], _ => none
  | (k, v) :: rest, c => if k = c then some v else alookup rest c

/-- `scores[cid] += d` on a `defaultdict(float)`: update in place if the key
exists, otherwise append at the end (Python dicts preserve insertion order). -/
def addScore : List (String × ℚ) → String → ℚ → List (String × ℚ)
  | [], cid, d => [(cid, d)]
  | (k, v) :: rest, cid, d =>
    if k = cid then (k, v + d) :: rest else (k, v) :: addScore rest cid d

/-- `if cid not in keep_text and "text" in item: keep_text[cid] = item["text"]`
from `_rrf_fuse`. -/
def keepFirst (kt : List (String × String)) (cid : String) : Option String → List (String × String)
  | none => kt
  | some txt => if (alookup kt cid).isSome then kt else kt ++ [(cid, txt)]

/-- The inner loop of `_rrf_fuse`: `for rank, item in enumerate(ranked, start=1)`,
accumulating `scores` and `keep_text`. -/
def fuseList (k : ℕ) (scores : List (String × ℚ)) (kt : List (String × String)) (rank : ℕ) :
    List Item → List (String × ℚ) × List (String × String)
  | [] => (scores, kt)
  | it :: rest =>
    fuseList k (addScore scores it.id (1 / ((k : ℚ) + (rank : ℚ))))
      (keepFirst kt it.id it.text) (rank + 1) rest

/-- The descending stable sort `fused.sort(key=lambda x: x["score"], reverse=True)`.
Python's sort is stable also with `reverse=True`; a stable sort is determined
by the key order, so insertion sort with the relation
`a ≼ b ↔ b.score ≤ a.score` produces the same list as Python's Timsort. -/
def sortDesc (l : List Item) : List Item :=
  l.insertionSort (fun a b => b.score ≤ a.score)

/-- `_rrf_fuse(ranked_lists, k)` from `app/services/retriever.py`. -/
def rrf_fuse (ranked_lists : List (List Item)) (k : ℕ) : List Item :=
  let p := ranked_lists.foldl (fun acc ranked => fuseList k acc.1 acc.2 1 ranked) ([], [])
  sortDesc (p.1.map (fun sc => ⟨sc.1, sc.2, alookup p.2 sc.1⟩))

/-- `retrieve_from_queries` from `app/services/retriever.py`.  The embedder
(`embed_texts`) and the vector index (`pinecone_query`) live outside this
repository and are passed in as oracles. -/
def retrieve_from_queries
    (embed : List String → List (List ℚ))
    (pq : List ℚ → String → ℕ → Bool → List Item)
    (namespace' : String) (queries : List String)
    (per_query_k : ℕ) (final_k : ℕ) (include_text : Bool) : List Item :=
  if queries = [] then []
  else
    let qvecs := embed queries
    let ranked_lists := qvecs.map (fun qv => pq qv namespace' per_query_k include_text)
    (rrf_fuse ranked_lists 60).take final_k

/-! ### Specification-side definitions for RRF -/

/-- The RRF contribution of one ranked list to one id, starting at 1-based
rank `rank`: the sum of `1/(k + r)` over every rank `r` at which the id
occurs. -/
def listScoreFrom (k : ℕ) (rank : ℕ) : List Item → String → ℚ
  | [], _ => 0
  | it :: rest, cid =>
    (if it.id = cid then 1 / ((k : ℚ) + (rank : ℚ)) else 0) + listScoreFrom k (rank + 1) rest cid

/-- The total RRF score of an id: the sum, over every list and every 1-based
rank at which the id appears, of `1/(k + r)`. -/
def rrfScore (k : ℕ) (lists : List (List Item)) (cid : String) : ℚ :=
  (lists.map (fun l => listScoreFrom k 1 l cid)).sum

/-- The first `some` text carried by an item with the given id, in traversal
order. -/
def firstText : List Item → String → Option String
  | [], _ => none
  | it :: rest, cid => (if it.id = cid then it.text else none).orElse (fun _ => firstText rest cid)

/-- Keys of an association list. -/
def keysOf {β : Type} (l : List (String × β)) : List String := l.map Prod.fst

/-- The `for ranked in ranked_lists` accumulation of `_rrf_fuse`. -/
def fuseAll (k : ℕ) (acc : List (String × ℚ) × List (String × String))
    (lists : List (List Item)) : List (String × ℚ) × List (String × String) :=
  lists.foldl (fun acc ranked => fuseList k acc.1 acc.2 1 ranked) acc

instance : IsTotal Item (fun a b => b.score ≤ a.score) :=
  ⟨fun a b => le_total b.score a.score⟩

instance : IsTrans Item (fun a b => b.score ≤ a.score) :=
  ⟨fun _ _ _ hab hbc => le_trans hbc hab⟩

instance : IsAntisymm (String × ℚ) (fun p q => q.2 < p.2) :=
  ⟨fun _ _ h1 h2 => absurd h2 (not_lt.mpr (le_of_lt h1))⟩

/-- The fused score a fusion result assigns to an id (`none` when the id is
absent). -/
def idScore (l : List Item) (c : String) : Option ℚ :=
  (l.find? (fun it => it.id == c)).map Item.score

/-! ### Embedding of `app/services/generator.py` -/

/-- Python whitespace for `str.strip()` / `str.split()` (ASCII model). -/
def pyIsWs (c : Char) : Bool :=
  c == ' ' || c == '\t' || c == '\n' || c == '\r' || c == '\x0b' || c == '\x0c'

/-- `str.strip()` on the character list. -/
def stripWs (l : List Char) : List Char :=
  ((l.dropWhile pyIsWs).reverse.dropWhile pyIsWs).reverse

/-- `str.strip()` on strings. -/
def pyStrip (s : String) : String := String.mk (stripWs s.data)

/-- JSON values, as produced by Python's `json.loads` (`dict`s are
insertion-ordered association lists). -/
inductive Json where
  | null : Json
  | bool (b : Bool) : Json
  | num (q : ℚ) : Json
  | str (s : String) : Json
  | arr (elems : List Json) : Json
  | obj (fields : List (String × Json)) : Json

/-- Field access on a parsed JSON object. -/
def getField : Json → String → Option Json
  | Json.obj kvs, key => alookup kvs key
  | _, _ => none

/-- The `topic` argument of `generate_all`: `Union[str, List[str]]`. -/
inductive TopicArg where
  | str (s : String) : TopicArg
  | list (l : List String) : TopicArg

/-- `", ".join(topic) if topic else "General Topic"` / `topic or "General Topic"`. -/
def topicStr : TopicArg → String
  | TopicArg.list l => if l = [] then "General Topic" else String.intercalate ", " l
  | TopicArg.str s => if s = "" then "General Topic" else s

/-- Python `a or b` for an optional string `a` (`None` and `""` are falsy). -/
def pyOrStr (a : Option String) (b : String) : String :=
  match a with
  | some s => if s = "" then b else s
  | none => b

/-- The relevant fields of the process-wide `app.config` module. -/
structure Cfg where
  googleApiKey : String
  llmModelName : Option String

/-- The loop body of `_pack_context` (the locals `txt`/`snippet` of the
source are inlined): collects the appended snippet lines, skipping empty
texts, breaking at the first snippet that would push the accumulated size
past the budget once something has been packed. -/
def packLoop (maxc : ℕ) : ℕ → List Item → List String
  | _, [] => []
  | total, h :: rest =>
    if pyStrip (h.text.getD "") = "" then packLoop maxc total rest
    else if total + (pyStrip (h.text.getD "") ++ "\n").length > maxc ∧ total > 0 then []
    else (pyStrip (h.text.getD "") ++ "\n")
      :: packLoop maxc (total + (pyStrip (h.text.getD "") ++ "\n").length) rest

/-- `"\n".join(lines)`. -/
def joinLines : List String → String
  | [] => ""
  | [x] => x
  | x :: xs => x ++ "\n" ++ joinLines xs

/-- `_pack_context(hits, max_context_chars)` from `generator.py`. -/
def pack_context (hits : List Item) (max_context_chars : ℕ) : String :=
  joinLines ("CONTEXT SNIPPETS:" :: packLoop max_context_chars 0 hits)

/-- The non-empty stripped hit texts, in order (the texts `_pack_context`
considers). -/
def hitTexts : List Item → List String
  | [] => []
  | h :: rest =>
    if pyStrip (h.text.getD "") = "" then hitTexts rest
    else pyStrip (h.text.getD "") :: hitTexts rest

/-- Modelled from the spec (§4.5 ContextPacker), for the refinement in C3:
after the always-included first non-empty text, keep appending while the
accumulated size stays within the budget, stopping at the first overflow. -/
def specGreedyRest (maxc : ℕ) : ℕ → List String → List String
  | _, [] => []
  | total, t :: rest =>
    if total + (t.length + 1) > maxc then []
    else (t ++ "\n") :: specGreedyRest maxc (total + (t.length + 1)) rest

/-- Modelled from the spec (§4.5 ContextPacker): greedy packing where the
first non-empty text is always included, even past the budget. -/
def specGreedyPack (maxc : ℕ) : List String → List String
  | [] => []
  | t :: rest => (t ++ "\n") :: specGreedyRest maxc (t.length + 1) rest

/-- `_SYSTEM_PROMPT` from `generator.py`. -/
def SYSTEM_PROMPT : String := "You are \"Classroom Coach\", a patient, knowledgeable, and engaging teacher.

PRINCIPLES:
- Write like a supportive educator: clear, structured, and insightful.
- Always ensure a logical and natural flow between ideas.
- Use the provided Context Snippets as the base, but you may add general or external knowledge to make the topic complete and meaningful.
- Avoid citations, IDs, or reference markers in the output.
- Use real-world analogies or relatable examples wherever possible to make complex ideas easier to grasp.
- Each section should be concise (around 10–12 lines) so that it can fit comfortably on one presentation slide.
- Explanations should feel like a smooth classroom lecture, not fragmented notes.
"

/-- `_TASK_TEMPLATE` from `generator.py` (placeholders filled by
`build_prompt`). -/
def TASK_TEMPLATE : String := "TOPIC: {topic}
LEVEL: {level}
STYLE: {style}
LANGUAGE: {language}

INSTRUCTIONS:
- Produce high-quality educational content suited for the given LEVEL and STYLE.
- Ensure the content follows a logical and natural teaching flow:
  1. Why this topic is important or needed.
  2. What the topic is (definition and explanation).
  3. Subtypes, components, or variations (if any).
  4. How it works or is applied.
  5. Real-world examples or analogies (to enhance understanding).
  6. Summary or conclusion to reinforce learning.
- You may use general or external knowledge to make the content accurate, coherent, and meaningful.
- Do NOT include citations, IDs, or references in the output.
- Keep each section concise (10–12 lines max) and clear enough to fit a single slide.
"

/-- `_SCHEMA_NOTES` from `generator.py`. -/
def SCHEMA_NOTES : String := "Return JSON ONLY with this schema:
\x7b
  \"topic\": \"string\",
  \"objective\": \"notes\",
  \"level\": \"string\",
  \"language\": \"string\",
  \"style\": \"string\",
  \"summary\": \"string\",
  \"key_points\": [\"string\", \"...\"],
  \"sections\": [
    \x7b\"title\": \"string\", \"bullets\": [\"string\", \"...\"]\x7d
  ],
  \"glossary\": [
    \x7b\"term\": \"string\", \"definition\": \"string\"\x7d
  ],
  \"misconceptions\": [
    \x7b\"statement\": \"string\", \"correction\": \"string\"\x7d
  ]
\x7d

NOTES:
- Include 7–10 well-structured sections covering the topic in depth.
- Each section should have around 10–12 informative lines, keeping it detailed yet presentation-friendly.
- Maintain clear progression between sections so the content reads like a guided explanation.
- Use analogies or relatable real-world examples when they enhance understanding.
"

/-- `_SCHEMA_SUMMARY` from `generator.py`. -/
def SCHEMA_SUMMARY : String := "Return JSON ONLY with this schema:
\x7b
  \"topic\": \"string\",
  \"objective\": \"summary\",
  \"level\": \"string\",
  \"language\": \"string\",
  \"style\": \"string\",
  \"summary\": \"string\",
  \"key_points\": [\"string\", \"...\"]
\x7d

NOTES:
- The summary should feel complete and standalone, covering the topic concisely.
- Highlight main ideas, ensure conceptual clarity, and use simple real-world analogies when helpful.
"

/-- `_SCHEMA_MCQS` from `generator.py`. -/
def SCHEMA_MCQS : String := "Return JSON ONLY with this schema:
\x7b
  \"topic\": \"string\",
  \"objective\": \"mcqs\",
  \"level\": \"string\",
  \"language\": \"string\",
  \"style\": \"string\",
  \"questions\": [
    \x7b
      \"stem\": \"string\",
      \"options\": [\"A) ...\", \"B) ...\", \"C) ...\", \"D) ...\"],
      \"answer\": \"A\",
      \"explanation\": \"string\"
    \x7d
  ]
\x7d

NOTES:
- First, attempt to locate or adapt high-quality, well-known MCQs related to the topic from trusted educational sources available on the internet (without citing them).
- If suitable MCQs are not available, generate original, exam-quality MCQs that assess higher-order thinking:
  - Mix conceptual, applied, reasoning-based, and numerical/problem-solving questions.
  - Avoid trivial recall-type questions.
  - Ensure logical distractors (plausible wrong answers).
  - Provide clear, concise explanations that teach the reasoning behind the correct answer.
- Maintain a balanced difficulty distribution: ~30% easy, 40% medium, and 30% challenging.
- Avoid any citations, source mentions, or URLs in the output.
"

/-- `_build_prompt` from `generator.py`.  (`str.format` fills each
placeholder once; sequential `replace` is equivalent because the template
contains each placeholder once and the digits/labels substituted cannot
introduce another placeholder first.) -/
def build_prompt (objective topic level style language context_block : String) : String :=
  let task := (((TASK_TEMPLATE.replace "{topic}" topic).replace "{level}" level).replace
      "{style}" style).replace "{language}" language
  let schema := if objective = "notes" then SCHEMA_NOTES
    else if objective = "summary" then SCHEMA_SUMMARY else SCHEMA_MCQS
  SYSTEM_PROMPT ++ "\n\nOBJECTIVE: " ++ objective ++ "\n\n" ++ task ++ "\n\n"
    ++ context_block ++ "\n\n" ++ schema

/-- `_gemini_call(prompt, model_name)`: the Gemini SDK is an external
collaborator, passed as the oracle `llm` (model name, then prompt); the
source returns `(resp.text or "").strip()`, with the `or ""` folded into the
total oracle. -/
def gemini_call (llm : String → String → String) (prompt model_name : String) : String :=
  pyStrip (llm model_name prompt)

/-- `s.find(c)` (first index, codepoints), as `Option` instead of `-1`. -/
def findIdx (c : Char) : List Char → Option ℕ
  | [] => none
  | x :: xs => if x = c then some 0 else (findIdx c xs).map (· + 1)

/-- `s.rfind(c)` (last index, codepoints), as `Option` instead of `-1`. -/
def rfindIdx (c : Char) (l : List Char) : Option ℕ :=
  (findIdx c l.reverse).map (fun i => l.length - 1 - i)

/-- The message of the `ValueError` raised by `_json_sanitize`. -/
def invalidJsonMsg : String := "LLM did not return valid JSON."

/-- `_json_sanitize` from `generator.py`: strict `json.loads` first; on
failure re-parse the substring from the first `\x7b` to the last `\x7d`
(when the former precedes the latter), propagating that parse's own error;
otherwise raise `ValueError`.  `loads` is the external `json` module. -/
def json_sanitize (loads : String → Except String Json) (s : String) : Except String Json :=
  match loads s with
  | Except.ok j => Except.ok j
  | Except.error _ =>
    match findIdx '\x7b' s.data, rfindIdx '\x7d' s.data with
    | some st, some en =>
      if st < en then loads (String.mk ((s.data.drop st).take (en + 1 - st)))
      else Except.error invalidJsonMsg
    | some _, none => Except.error invalidJsonMsg
    | none, _ => Except.error invalidJsonMsg

/-- The `"insufficient information"` scaffold returned by `generate_all`
when retrieval produced no hits (lines 239–261 of `generator.py`). -/
def scaffold_result (topic_str level language style : String) : Json :=
  Json.obj
    [ ("topic", Json.str topic_str), ("level", Json.str level),
      ("language", Json.str language), ("style", Json.str style),
      ("notes", Json.obj
        [ ("topic", Json.str topic_str), ("objective", Json.str "notes"),
          ("level", Json.str level), ("language", Json.str language),
          ("style", Json.str style),
          ("summary", Json.str "insufficient information"),
          ("key_points", Json.arr []), ("sections", Json.arr []),
          ("glossary", Json.arr []), ("misconceptions", Json.arr []) ]),
      ("summary", Json.obj
        [ ("topic", Json.str topic_str), ("objective", Json.str "summary"),
          ("level", Json.str level), ("language", Json.str language),
          ("style", Json.str style),
          ("summary", Json.str "insufficient information"),
          ("key_points", Json.arr []) ]),
      ("mcqs", Json.obj
        [ ("topic", Json.str topic_str), ("objective", Json.str "mcqs"),
          ("level", Json.str level), ("language", Json.str language),
          ("style", Json.str style),
          ("questions", Json.arr []) ]) ]

/-- Python `dict.setdefault(key, v)` on an insertion-ordered association
list: keep an existing binding, else append at the end. -/
def setdefaultKvs (kvs : List (String × Json)) (key : String) (v : Json) :
    List (String × Json) :=
  if (alookup kvs key).isSome then kvs else kvs ++ [(key, v)]

/-- The backfill loop body of `generate_all` (lines 284–289): five
`setdefault`s, in source order. -/
def backfillKvs (kvs : List (String × Json)) (objective topic_str level language style : String) :
    List (String × Json) :=
  setdefaultKvs (setdefaultKvs (setdefaultKvs (setdefaultKvs (setdefaultKvs kvs
    "topic" (Json.str topic_str)) "objective" (Json.str objective))
    "level" (Json.str level)) "language" (Json.str language)) "style" (Json.str style)

/-- `blob.setdefault(...)` on each parsed block; a non-`dict` JSON value has
no `setdefault` and raises `AttributeError`. -/
def backfill (blob : Json) (objective topic_str level language style : String) :
    Except String Json :=
  match blob with
  | Json.obj kvs =>
    Except.ok (Json.obj (backfillKvs kvs objective topic_str level language style))
  | _ => Except.error "AttributeError: object has no attribute setdefault"

/-- `generate_all` from `generator.py`.  Oracles: `llm` (Gemini), `loads`
(Python `json`), `embed`/`pq` (embedder and vector index used by the
internal `retrieve_from_queries` call). -/
def generate_all
    (llm : String → String → String) (loads : String → Except String Json)
    (embed : List String → List (List ℚ)) (pq : List ℚ → String → ℕ → Bool → List Item)
    (cfg : Cfg) (namespace' : String) (topic : TopicArg) (queries : List String)
    (level style language : String) (final_k max_context_chars : ℕ)
    (model_name : Option String) (mcq_count : ℕ) : Except String Json :=
  if cfg.googleApiKey = "" then
    Except.error "GOOGLE_API_KEY missing. Set it in your environment/.env."
  else
    let topic_str := topicStr topic
    let hits := retrieve_from_queries embed pq namespace' queries 5 final_k true
    if hits = [] then Except.ok (scaffold_result topic_str level language style)
    else
      let context_block := pack_context hits max_context_chars
      let model := pyOrStr model_name (cfg.llmModelName.getD "gemini-1.5-flash")
      match json_sanitize loads
          (gemini_call llm (build_prompt "notes" topic_str level style language context_block)
            model) with
      | Except.error e => Except.error e
      | Except.ok notes =>
        match json_sanitize loads
            (gemini_call llm (build_prompt "summary" topic_str level style language context_block)
              model) with
        | Except.error e => Except.error e
        | Except.ok summary =>
          match json_sanitize loads
              (gemini_call llm
                (build_prompt "mcqs" topic_str level style language context_block
                  ++ "\n\nAdditional requirement: generate approximately "
                  ++ toString mcq_count ++ " questions.")
                model) with
          | Except.error e => Except.error e
          | Except.ok mcqs =>
            match backfill notes "notes" topic_str level language style with
            | Except.error e => Except.error e
            | Except.ok notes2 =>
              match backfill summary "summary" topic_str level language style with
              | Except.error e => Except.error e
              | Except.ok summary2 =>
                match backfill mcqs "mcqs" topic_str level language style with
                | Except.error e => Except.error e
                | Except.ok mcqs2 =>
                  Except.ok (Json.obj
                    [ ("topic", Json.str topic_str), ("level", Json.str level),
                      ("language", Json.str language), ("style", Json.str style),
                      ("notes", notes2), ("summary", summary2), ("mcqs", mcqs2) ])

/-- The `final_k` policy table of `run_pipeline`
(`app/main/main_combined.py`, lines 101–109). -/
def styleFinalK (style : String) : ℕ :=
  if style = "concise" then 3
  else if style = "detailed" then 8
  else if style = "exam-prep" then 5
  else 8

/-- Two-level field access on a result object. -/
def getField2 (r : Json) (a b : String) : Option Json :=
  (getField r a).bind (fun x => getField x b)

/-- Successful payload of an `Except` (a Python call that did not raise). -/
def exceptToOption {ε α : Type} : Except ε α → Option α
  | Except.ok a => some a
  | Except.error _ => none

/-- A `json.loads` behaviour that fails on every input (as the real parser
does on the non-JSON strings used in the counterexamples). -/
def loadsAlwaysFail : String → Except String Json := fun _ =>
  Except.error "Expecting value: line 1 column 1 (char 0)"

/-- `json.loads` point-behaviour for the repair witness: fails strictly on
the decorated string, succeeds on the brace-delimited slice, as the real
parser does on these two strings. -/
def loadsRepair : String → Except String Json := fun s =>
  if s = "\x7b\"a\": 1\x7d" then Except.ok (Json.obj [("a", Json.num 1)])
  else Except.error "Expecting value: line 1 column 1 (char 0)"

/-- Witness LLM oracle (never reached on the scaffold path). -/
def wLlm : String → String → String := fun _ _ => ""

/-- Witness `json.loads` oracle (never reached on the scaffold path). -/
def wLoads : String → Except String Json := fun _ =>
  Except.error "Expecting value: line 1 column 1 (char 0)"

/-- Witness embedder oracle: one vector per query. -/
def wEmbed : List String → List (List ℚ) := fun qs => qs.map (fun _ => [])

/-- Witness vector-index oracle returning no matches. -/
def wPq : List ℚ → String → ℕ → Bool → List Item := fun _ _ _ _ => []

/-- Counterexample LLM oracle: always answers the same raw text. -/
def cexLlm : String → String → String := fun _ _ => "RAW"

/-- Counterexample `json.loads` oracle: parses the raw LLM answer into an
object that carries its own `objective` field. -/
def cexLoads : String → Except String Json := fun s =>
  if s = "RAW" then Except.ok (Json.obj [("objective", Json.str "bogus")])
  else Except.error "Expecting value: line 1 column 1 (char 0)"

/-- Counterexample embedder oracle: one vector per query. -/
def cexEmbed : List String → List (List ℚ) := fun qs => qs.map (fun _ => [])

/-- Counterexample vector-index oracle returning one hit with text. -/
def cexPq : List ℚ → String → ℕ → Bool → List Item := fun _ _ _ _ => [⟨"c1", 1, some "ctx"⟩]

/-! ### Embedding of `app/services/generate_queries.py` -/

/-- `str.strip(chars)`: drop the given characters from both ends. -/
def stripSet (cs : List Char) (l : List Char) : List Char :=
  ((l.dropWhile (fun c => cs.contains c)).reverse.dropWhile (fun c => cs.contains c)).reverse

/-- `str.lower()` per character (ASCII model). -/
def lowerChar (c : Char) : Char :=
  if 65 ≤ c.toNat ∧ c.toNat ≤ 90 then Char.ofNat (c.toNat + 32) else c

/-- `str.lower()` (ASCII model). -/
def lowerStr (l : List Char) : List Char := l.map lowerChar

/-- `str.split()` worker: `cur` is the (reversed) word being read. -/
def wordsAux (cur : List Char) : List Char → List (List Char)
  | [] => if cur = [] then [] else [cur.reverse]
  | c :: rest =>
    if pyIsWs c then
      if cur = [] then wordsAux [] rest else cur.reverse :: wordsAux [] rest
    else wordsAux (c :: cur) rest

/-- `str.split()`: whitespace-separated words, empty pieces dropped. -/
def words (l : List Char) : List (List Char) := wordsAux [] l

/-- `" ".join(ws)`. -/
def joinWords : List (List Char) → List Char
  | [] => []
  | [w] => w
  | w :: ws => w ++ ' ' :: joinWords ws

/-- `str.splitlines()` worker (line boundaries LF and CR; a CRLF yields an
extra empty line, which the query loop skips anyway). -/
def splitLinesAux (cur : List Char) : List Char → List (List Char)
  | [] => [cur.reverse]
  | c :: rest =>
    if c = '\n' ∨ c = '\r' then cur.reverse :: splitLinesAux [] rest
    else splitLinesAux (c :: cur) rest

/-- `str.splitlines()` (up to trailing empty lines, which the loop skips). -/
def splitLines (l : List Char) : List (List Char) := splitLinesAux [] l

/-- Line normalisation, step 1 (line 67 of `generate_queries.py`):
`q = line.strip().strip("-•").strip()`. -/
def preQ (line : List Char) : List Char :=
  stripWs (stripSet ['-', '•'] (stripWs line))

/-- Line normalisation, steps 3–4 (lines 70–71):
`q = " ".join(q.split())` then `q = q.strip('"').strip("'").lower()`. -/
def postQ (q : List Char) : List Char :=
  lowerStr (stripSet ['\x27'] (stripSet ['\x22'] (joinWords (words q))))

/-- One iteration of the `for line in text.splitlines()` loop of
`_gemini_queries` (lines 66–79); the state is `(seen, out)`. -/
def qStep (st : List (List Char) × List (List Char)) (line : List Char) :
    List (List Char) × List (List Char) :=
  if preQ line = [] then st
  else if postQ (preQ line) ∈ st.1 then st
  else if (words (postQ (preQ line))).length > 9 then
    (if joinWords ((words (postQ (preQ line))).take 9) = [] then st
     else (joinWords ((words (postQ (preQ line))).take 9) :: st.1,
       st.2 ++ [joinWords ((words (postQ (preQ line))).take 9)]))
  else
    (if postQ (preQ line) = [] then st
     else (postQ (preQ line) :: st.1, st.2 ++ [postQ (preQ line)]))

/-- The post-LLM processing of `_gemini_queries` (lines 57–81): strip the
answer, loop over its lines, return `out[:n_total]`. -/
def buildQueries (text : List Char) (n_total : ℕ) : List (List Char) :=
  (((splitLines (stripWs text)).foldl qStep ([], [])).2).take n_total

/-- `_LLM_PROMPT_TEMPLATE` (the module applies `.strip()` at definition
time; the stripped text is inlined here). -/
def LLM_PROMPT_TEMPLATE : String := "You are an expert assistant that helps a teacher prepare retrieval queries for a video transcript.

Given the teacher\x27s topic or short plan, produce {n_total} short, diverse search queries
(≤ 15 words each) that would best retrieve relevant transcript chunks for RAG (Retrieval-Augmented Generation).

Mix styles:
- key concept phrases
- \"what is …\" questions
- \"how does … work\" questions
- comparison or example-based questions

Each query must stand alone, be natural English, and stay within 15 words.

Output: plain text only, ONE query per line. No numbering, no quotes, no extra text.

Content Plan:
\"\"\"{plan_text}\"\"\""

/-- `_gemini_queries(plan, n_total, model_name)`.  The Gemini SDK is the
oracle `llm` (model name, then prompt); its failure is wrapped in the
`RuntimeError` of the `try` block. -/
def gemini_queries (llm : String → String → Except String String)
    (plan : String) (n_total : ℕ) (model_name : String) : Except String (List String) :=
  match llm model_name
      ((LLM_PROMPT_TEMPLATE.replace "{n_total}" (toString n_total)).replace
        "{plan_text}" (String.mk (plan.data.take 6000))) with
  | Except.error e => Except.error ("Failed to generate content from Gemini: " ++ e)
  | Except.ok t =>
    Except.ok ((buildQueries (stripWs t.data) n_total).map (fun l => String.mk l))

/-- `generate_queries_from_plan(plan, n, model_name)` from
`generate_queries.py`. -/
def generate_queries_from_plan (llm : String → String → Except String String)
    (cfg : Cfg) (plan : String) (n : ℕ) (model_name : Option String) :
    Except String (List String) :=
  if cfg.googleApiKey = "" then
    Except.error "GOOGLE_API_KEY missing. Set it in your environment/.env."
  else if plan = "" ∨ pyStrip plan = "" then Except.error "Plan text cannot be empty"
  else
    gemini_queries llm plan (max 3 (min 12 n))
      (pyOrStr model_name (cfg.llmModelName.getD "gemini-2.5-flash"))

/-- Witness LLM oracle for the query pipeline. -/
def qwLlm : String → String → Except String String := fun _ _ => Except.ok "alpha beta"

/-- Counterexample LLM oracle: the same ten-word line twice. -/
def cexQLlm : String → String → Except String String := fun _ _ =>
  Except.ok "a b c d e f g h i j\na b c d e f g h i j"

end TCG

/-! ### Association-list and RRF accumulation lemmas -/

namespace TCG

theorem alookup_append {β : Type} (l₁ l₂ : List (String × β)) (c : String) :
    alookup (l₁ ++ l₂) c = (alookup l₁ c).orElse (fun _ => alookup l₂ c) := by
  induction l₁ with
  | nil => simp [alookup]
  | cons p rest ih =>
    by_cases h : p.1 = c <;> simp [alookup, h, ih]

theorem alookup_isSome_iff {β : Type} (l : List (String × β)) (c : String) :
    (alookup l c).isSome = true ↔ c ∈ keysOf l := by
  induction l with
  | nil => simp [alookup, keysOf]
  | cons p rest ih =>
    simp only [alookup, keysOf, List.map_cons, List.mem_cons]
    by_cases h : p.1 = c
    · simp [h]
    · simp only [if_neg h]
      rw [ih]
      simp [keysOf, Ne.symm h]

theorem alookup_eq_some_of_mem_nodup {β : Type} (l : List (String × β)) (k : String) (v : β)
    (hn : (keysOf l).Nodup) (hm : (k, v) ∈ l) : alookup l k = some v := by
  induction l with
  | nil => simp at hm
  | cons p rest ih =>
    simp only [keysOf, List.map_cons, List.nodup_cons] at hn
    rcases List.mem_cons.1 hm with h | h
    · subst h; simp [alookup]
    · have hk : p.1 ≠ k := by
        intro he
        exact hn.1 (he ▸ (List.mem_map.2 ⟨(k, v), h, rfl⟩))
      simp [alookup, hk, ih hn.2 h]

theorem alookup_addScore (scores : List (String × ℚ)) (cid : String) (d : ℚ) (c : String) :
    alookup (addScore scores cid d) c
      = if c = cid then some ((alookup scores c).getD 0 + d) else alookup scores c := by
  induction scores with
  | nil =>
    by_cases h : c = cid
    · subst h; simp [addScore, alookup]
    · simp [addScore, alookup, h, Ne.symm h]
  | cons p rest ih =>
    by_cases hp : p.1 = cid
    · subst hp
      by_cases hc : c = p.1
      · subst hc; simp [addScore, alookup]
      · simp [addScore, alookup, hc, Ne.symm hc]
    · by_cases hc : p.1 = c
      · have hcc : ¬(c = cid) := fun he => hp (hc.trans he)
        simp [addScore, hp, alookup, hc, hcc]
      · simp [addScore, hp, alookup, hc, ih]

theorem keysOf_addScore (scores : List (String × ℚ)) (cid : String) (d : ℚ) :
    keysOf (addScore scores cid d)
      = if cid ∈ keysOf scores then keysOf scores else keysOf scores ++ [cid] := by
  induction scores with
  | nil => simp [addScore, keysOf]
  | cons p rest ih =>
    by_cases hp : p.1 = cid
    · subst hp
      simp [addScore, keysOf, List.mem_cons]
    · by_cases hm : cid ∈ keysOf rest
      · simp only [keysOf, List.map_cons] at *
        simp [addScore, hp, ih, hm, List.mem_cons, Ne.symm hp]
      · simp only [keysOf, List.map_cons] at *
        simp [addScore, hp, ih, hm, List.mem_cons, Ne.symm hp]

theorem nodup_keysOf_addScore (scores : List (String × ℚ)) (cid : String) (d : ℚ)
    (h : (keysOf scores).Nodup) : (keysOf (addScore scores cid d)).Nodup := by
  rw [keysOf_addScore]
  by_cases hm : cid ∈ keysOf scores
  · simpa [hm]
  · simp [hm, List.nodup_append, h]

theorem mem_keysOf_addScore (scores : List (String × ℚ)) (cid : String) (d : ℚ) (c : String) :
    c ∈ keysOf (addScore scores cid d) ↔ c = cid ∨ c ∈ keysOf scores := by
  rw [keysOf_addScore]
  by_cases hm : cid ∈ keysOf scores
  · simp only [hm, if_true]
    constructor
    · exact fun h => Or.inr h
    · rintro (rfl | h) <;> [exact hm; exact h]
  · simp [hm, or_comm]

theorem alookup_keepFirst (kt : List (String × String)) (cid : String) (t : Option String)
    (c : String) :
    alookup (keepFirst kt cid t) c
      = (alookup kt c).orElse (fun _ => if c = cid then t else none) := by
  cases t with
  | none =>
    cases h : alookup kt c <;>
      simp [keepFirst, h, Option.none_orElse', Option.some_orElse']
  | some txt =>
    by_cases hs : (alookup kt cid).isSome = true
    · simp only [keepFirst, hs, if_true]
      cases h : alookup kt c with
      | some v => simp [Option.some_orElse']
      | none =>
        by_cases hc : c = cid
        · subst hc; rw [h] at hs; simp at hs
        · simp [Option.none_orElse', hc]
    · have hnone : alookup kt cid = none := by
        cases hq : alookup kt cid
        · rfl
        · rw [hq] at hs; simp at hs
      have hif : keepFirst kt cid (some txt) = kt ++ [(cid, txt)] := by
        simp [keepFirst, hnone]
      rw [hif, alookup_append]
      cases h : alookup kt c with
      | some v => simp [Option.some_orElse']
      | none =>
        simp only [Option.none_orElse']
        by_cases hc : c = cid
        · subst hc; simp [alookup]
        · simp [alookup, hc, Ne.symm hc]

theorem orElse_assoc' {α : Type} (a b c : Option α) :
    (a.orElse fun _ => b).orElse (fun _ => c) = a.orElse (fun _ => b.orElse fun _ => c) := by
  cases a <;> simp [Option.some_orElse', Option.none_orElse']

theorem firstText_append (l₁ l₂ : List Item) (c : String) :
    firstText (l₁ ++ l₂) c = (firstText l₁ c).orElse (fun _ => firstText l₂ c) := by
  induction l₁ with
  | nil => simp [firstText, Option.none_orElse']
  | cons it rest ih =>
    simp only [List.cons_append, firstText, List.append_eq, ih]
    rw [orElse_assoc']

theorem fuseList_fst_getD (k : ℕ) (ranked : List Item) :
    ∀ (scores : List (String × ℚ)) (kt : List (String × String)) (rank : ℕ) (c : String),
      (alookup (fuseList k scores kt rank ranked).1 c).getD 0
        = (alookup scores c).getD 0 + listScoreFrom k rank ranked c := by
  induction ranked with
  | nil => intro scores kt rank c; simp [fuseList, listScoreFrom]
  | cons it rest ih =>
    intro scores kt rank c
    simp only [fuseList, listScoreFrom]
    rw [ih, alookup_addScore]
    by_cases hc : c = it.id
    · subst hc
      simp only [eq_self_iff_true, if_true, Option.getD_some]
      ring
    · rw [if_neg hc, if_neg (Ne.symm hc)]
      ring

theorem fuseList_fst_mem (k : ℕ) (ranked : List Item) :
    ∀ (scores : List (String × ℚ)) (kt : List (String × String)) (rank : ℕ) (c : String),
      (c ∈ keysOf (fuseList k scores kt rank ranked).1
        ↔ c ∈ keysOf scores ∨ ∃ it ∈ ranked, it.id = c) := by
  induction ranked with
  | nil => intro scores kt rank c; simp [fuseList]
  | cons it rest ih =>
    intro scores kt rank c
    simp only [fuseList]
    rw [ih]
    rw [mem_keysOf_addScore]
    simp only [List.mem_cons]
    constructor
    · rintro ((rfl | h) | h)
      · exact Or.inr ⟨it, Or.inl rfl, rfl⟩
      · exact Or.inl h
      · rcases h with ⟨x, hx, hid⟩
        exact Or.inr ⟨x, Or.inr hx, hid⟩
    · rintro (h | ⟨x, (rfl | hx), hid⟩)
      · exact Or.inl (Or.inr h)
      · exact Or.inl (Or.inl hid.symm)
      · exact Or.inr ⟨x, hx, hid⟩

theorem fuseList_fst_nodup (k : ℕ) (ranked : List Item) :
    ∀ (scores : List (String × ℚ)) (kt : List (String × String)) (rank : ℕ),
      (keysOf scores).Nodup → (keysOf (fuseList k scores kt rank ranked).1).Nodup := by
  induction ranked with
  | nil => intro scores kt rank h; simpa [fuseList]
  | cons it rest ih =>
    intro scores kt rank h
    exact ih _ _ _ (nodup_keysOf_addScore _ _ _ h)

theorem fuseList_snd (k : ℕ) (ranked : List Item) :
    ∀ (scores : List (String × ℚ)) (kt : List (String × String)) (rank : ℕ) (c : String),
      alookup (fuseList k scores kt rank ranked).2 c
        = (alookup kt c).orElse (fun _ => firstText ranked c) := by
  induction ranked with
  | nil =>
    intro scores kt rank c
    simp [fuseList, firstText, Option.orElse_none']
  | cons it rest ih =>
    intro scores kt rank c
    simp only [fuseList]
    rw [ih, alookup_keepFirst]
    simp only [firstText]
    rw [orElse_assoc']
    cases h : alookup kt c with
    | some v => simp [Option.some_orElse']
    | none =>
      simp only [Option.none_orElse']
      by_cases hc : c = it.id
      · subst hc; simp
      · simp [hc, Ne.symm hc]

theorem fuseAll_fst_getD (k : ℕ) (lists : List (List Item)) :
    ∀ (scores : List (String × ℚ)) (kt : List (String × String)) (c : String),
      (alookup (fuseAll k (scores, kt) lists).1 c).getD 0
        = (alookup scores c).getD 0 + rrfScore k lists c := by
  induction lists with
  | nil => intro scores kt c; simp [fuseAll, rrfScore]
  | cons l ls ih =>
    intro scores kt c
    simp only [fuseAll, List.foldl_cons] at *
    rw [show (fuseList k scores kt 1 l)
          = ((fuseList k scores kt 1 l).1, (fuseList k scores kt 1 l).2) from rfl]
    rw [ih, fuseList_fst_getD]
    simp only [rrfScore, List.map_cons, List.sum_cons]
    ring

theorem fuseAll_fst_mem (k : ℕ) (lists : List (List Item)) :
    ∀ (scores : List (String × ℚ)) (kt : List (String × String)) (c : String),
      (c ∈ keysOf (fuseAll k (scores, kt) lists).1
        ↔ c ∈ keysOf scores ∨ ∃ l ∈ lists, ∃ it ∈ l, it.id = c) := by
  induction lists with
  | nil => intro scores kt c; simp [fuseAll]
  | cons l ls ih =>
    intro scores kt c
    simp only [fuseAll, List.foldl_cons] at *
    rw [show (fuseList k scores kt 1 l)
          = ((fuseList k scores kt 1 l).1, (fuseList k scores kt 1 l).2) from rfl]
    rw [ih, fuseList_fst_mem]
    simp only [List.mem_cons]
    constructor
    · rintro ((h | ⟨x, hx, hid⟩) | ⟨ll, hll, hit⟩)
      · exact Or.inl h
      · exact Or.inr ⟨l, Or.inl rfl, x, hx, hid⟩
      · exact Or.inr ⟨ll, Or.inr hll, hit⟩
    · rintro (h | ⟨ll, (rfl | hll), hit⟩)
      · exact Or.inl (Or.inl h)
      · exact Or.inl (Or.inr hit)
      · exact Or.inr ⟨ll, hll, hit⟩

theorem fuseAll_fst_nodup (k : ℕ) (lists : List (List Item)) :
    ∀ (scores : List (String × ℚ)) (kt : List (String × String)),
      (keysOf scores).Nodup → (keysOf (fuseAll k (scores, kt) lists).1).Nodup := by
  induction lists with
  | nil => intro scores kt h; simpa [fuseAll]
  | cons l ls ih =>
    intro scores kt h
    simp only [fuseAll, List.foldl_cons] at *
    rw [show (fuseList k scores kt 1 l)
          = ((fuseList k scores kt 1 l).1, (fuseList k scores kt 1 l).2) from rfl]
    exact ih _ _ (fuseList_fst_nodup _ _ _ _ _ h)

theorem fuseAll_snd (k : ℕ) (lists : List (List Item)) :
    ∀ (scores : List (String × ℚ)) (kt : List (String × String)) (c : String),
      alookup (fuseAll k (scores, kt) lists).2 c
        = (alookup kt c).orElse (fun _ => firstText lists.flatten c) := by
  induction lists with
  | nil => intro scores kt c; simp [fuseAll, firstText, Option.orElse_none']
  | cons l ls ih =>
    intro scores kt c
    simp only [fuseAll, List.foldl_cons, List.flatten_cons] at *
    rw [show (fuseList k scores kt 1 l)
          = ((fuseList k scores kt 1 l).1, (fuseList k scores kt 1 l).2) from rfl]
    rw [ih, fuseList_snd, firstText_append, orElse_assoc']

/-- Full characterisation of `_rrf_fuse`: ids are deduplicated, each carries
the RRF sum of `1/(k+r)` over all its occurrences, the first-seen text is
retained, every input id appears, and the output is sorted by descending
fused score. -/
theorem rrf_fuse_char (lists : List (List Item)) (k : ℕ) :
    ((rrf_fuse lists k).map Item.id).Nodup
    ∧ (∀ it ∈ rrf_fuse lists k,
        it.score = rrfScore k lists it.id ∧ it.text = firstText lists.flatten it.id)
    ∧ (∀ c, (∃ it ∈ rrf_fuse lists k, it.id = c) ↔ ∃ l ∈ lists, ∃ it ∈ l, it.id = c)
    ∧ List.Sorted (fun a b : Item => b.score ≤ a.score) (rrf_fuse lists k) := by
  have hperm : List.Perm (rrf_fuse lists k)
      ((fuseAll k ([], []) lists).1.map
          (fun sc => (⟨sc.1, sc.2, alookup (fuseAll k ([], []) lists).2 sc.1⟩ : Item))) := by
    simpa [rrf_fuse, sortDesc, fuseAll] using
      List.perm_insertionSort (fun a b : Item => b.score ≤ a.score) _
  have hnodupkeys : (keysOf (fuseAll k ([], []) lists).1).Nodup := by
    exact fuseAll_fst_nodup k lists [] [] (by simp [keysOf])
  have hmapid : ((fuseAll k ([], []) lists).1.map
      (fun sc => (⟨sc.1, sc.2, alookup (fuseAll k ([], []) lists).2 sc.1⟩ : Item))).map Item.id
      = keysOf (fuseAll k ([], []) lists).1 := by
    simp [keysOf, List.map_map, Function.comp]
  refine ⟨?_, ?_, ?_, ?_⟩
  · exact ((hperm.map Item.id).nodup_iff).mpr (hmapid ▸ hnodupkeys)
  · intro it hit
    have hmem := hperm.mem_iff.mp hit
    rcases List.mem_map.1 hmem with ⟨sc, hsc, rfl⟩
    constructor
    · have hl : alookup (fuseAll k ([], []) lists).1 sc.1 = some sc.2 :=
        alookup_eq_some_of_mem_nodup _ _ _ hnodupkeys hsc
      have := fuseAll_fst_getD k lists [] [] sc.1
      rw [hl] at this
      simpa [alookup] using this
    · have := fuseAll_snd k lists [] [] sc.1
      simpa [alookup, Option.none_orElse'] using this
  · intro c
    have h1 : (∃ it ∈ rrf_fuse lists k, it.id = c) ↔ c ∈ (rrf_fuse lists k).map Item.id := by
      simp
    rw [h1, (hperm.map Item.id).mem_iff, hmapid]
    have := fuseAll_fst_mem k lists [] [] c
    simpa [keysOf] using this
  · simpa [rrf_fuse, sortDesc, fuseAll] using
      List.sorted_insertionSort (fun a b : Item => b.score ≤ a.score) _

end TCG

/-! ### C9 -/

namespace TCG

/-- C9: for every namespace (and every behaviour of the embedder and of the
vector index — the result does not depend on them, so neither is consulted),
`retrieve_from_queries` with an empty query list returns the empty list
without error. -/
theorem retrieve_empty_queries :
    (∀ embed pq ns pk fk inc, retrieve_from_queries embed pq ns [] pk fk inc = [])
    ∧ ∀ e₁ e₂ p₁ p₂ ns pk fk inc,
        retrieve_from_queries e₁ p₁ ns [] pk fk inc
          = retrieve_from_queries e₂ p₂ ns [] pk fk inc := by
  constructor
  · intro embed pq ns pk fk inc
    simp [retrieve_from_queries]
  · intro e₁ e₂ p₁ p₂ ns pk fk inc
    simp [retrieve_from_queries]

end TCG

/-! ### C1 -/

namespace TCG

/-- C1: the fused result assigns each distinct id the sum over every list and
every 1-based rank `r` at which it appears of `1/(60 + r)`; it is
deduplicated by id, retains the first-seen text per id, is sorted in
descending order of fused score; and `retrieve_from_queries` returns exactly
the first `final_k` fused hits, hence at most `final_k` of them. -/
theorem rrf_fusion_and_truncation :
    (∀ lists : List (List Item),
      (∀ it ∈ rrf_fuse lists 60, it.score = rrfScore 60 lists it.id)
      ∧ ((rrf_fuse lists 60).map Item.id).Nodup
      ∧ (∀ it ∈ rrf_fuse lists 60, it.text = firstText lists.flatten it.id)
      ∧ (∀ c, (∃ it ∈ rrf_fuse lists 60, it.id = c) ↔ ∃ l ∈ lists, ∃ it ∈ l, it.id = c)
      ∧ List.Sorted (fun a b : Item => b.score ≤ a.score) (rrf_fuse lists 60))
    ∧ (∀ embed pq ns queries pk fk inc, queries ≠ [] →
        retrieve_from_queries embed pq ns queries pk fk inc
          = (rrf_fuse ((embed queries).map (fun qv => pq qv ns pk inc)) 60).take fk
        ∧ (retrieve_from_queries embed pq ns queries pk fk inc).length ≤ fk) := by
  constructor
  · intro lists
    obtain ⟨h1, h2, h3, h4⟩ := rrf_fuse_char lists 60
    exact ⟨fun it h => (h2 it h).1, h1, fun it h => (h2 it h).2, h3, h4⟩
  · intro embed pq ns queries pk fk inc hne
    constructor
    · simp [retrieve_from_queries, hne]
    · simp only [retrieve_from_queries, hne, if_neg hne]
      exact List.length_take_le _ _

theorem rrf_fusion_and_truncation_witness :
    (retrieve_from_queries (fun _ => [[(1 : ℚ)]]) (fun _ _ _ _ => [⟨"a", 1, some "t"⟩])
      "ns" ["q"] 5 8 true).length ≤ 8 :=
  (rrf_fusion_and_truncation.2 (fun _ => [[(1 : ℚ)]]) (fun _ _ _ _ => [⟨"a", 1, some "t"⟩])
    "ns" ["q"] 5 8 true (by decide)).2

end TCG

/-! ### C4 -/

namespace TCG

/-- C4 counterexample: with `L1 = [{"id": "a"}]` and `L2 = [{"id": "b"}]`
both ids receive the tied score `1/61`, and the stable sort preserves
discovery order, which differs between `[L1, L2]` and `[L2, L1]`: the two
fused orderings are not the same. -/
theorem rrf_commutativity_cex :
    ((rrf_fuse [[⟨"a", 0, none⟩], [⟨"b", 0, none⟩]] 60).map Item.id
        = ["a", "b"])
    ∧ ((rrf_fuse [[⟨"b", 0, none⟩], [⟨"a", 0, none⟩]] 60).map Item.id
        = ["b", "a"])
    ∧ (rrf_fuse [[⟨"a", 0, none⟩], [⟨"b", 0, none⟩]] 60).map Item.id
        ≠ (rrf_fuse [[⟨"b", 0, none⟩], [⟨"a", 0, none⟩]] 60).map Item.id := by
  have e1 : rrf_fuse [[⟨"a", 0, none⟩], [⟨"b", 0, none⟩]] 60
      = [⟨"a", 1/61, none⟩, ⟨"b", 1/61, none⟩] := by
    norm_num [rrf_fuse, fuseList, addScore, keepFirst, alookup, sortDesc,
      List.insertionSort, List.orderedInsert]
  have e2 : rrf_fuse [[⟨"b", 0, none⟩], [⟨"a", 0, none⟩]] 60
      = [⟨"b", 1/61, none⟩, ⟨"a", 1/61, none⟩] := by
    norm_num [rrf_fuse, fuseList, addScore, keepFirst, alookup, sortDesc,
      List.insertionSort, List.orderedInsert]
  refine ⟨by rw [e1]; rfl, by rw [e2]; rfl, ?_⟩
  rw [e1, e2]
  decide

end TCG

namespace TCG

/-- `idScore` of a fusion result: `some (rrfScore k lists c)` exactly when the
id occurs somewhere in the input lists. -/
theorem idScore_rrf_fuse (lists : List (List Item)) (k : ℕ) (c : String) :
    idScore (rrf_fuse lists k) c
      = if ∃ l ∈ lists, ∃ it ∈ l, it.id = c then some (rrfScore k lists c) else none := by
  obtain ⟨_, hsc, hmem, _⟩ := rrf_fuse_char lists k
  by_cases h : ∃ l ∈ lists, ∃ it ∈ l, it.id = c
  · rw [if_pos h]
    obtain ⟨it, hmemit, hid⟩ := (hmem c).mpr h
    unfold idScore
    cases hf : (rrf_fuse lists k).find? (fun it => it.id == c) with
    | none =>
      exfalso
      have := List.find?_eq_none.mp hf it hmemit
      simp [hid] at this
    | some a =>
      have ha : a.id = c := by simpa using List.find?_some hf
      have hamem : a ∈ rrf_fuse lists k := List.mem_of_find?_eq_some hf
      simp [(hsc a hamem).1, ha]
  · rw [if_neg h]
    unfold idScore
    have hn : (rrf_fuse lists k).find? (fun it => it.id == c) = none := by
      apply List.find?_eq_none.mpr
      intro x hx
      simp only [beq_iff_eq]
      intro he
      exact h ((hmem c).mp ⟨x, hx, he⟩)
    simp [hn]

/-- C4 amended: fusing `[L1, L2]` and `[L2, L1]` yields the same per-id fused
scores and the same set of ids; the fused orderings moreover coincide
whenever no two distinct ids tie on fused score.  (Under tied scores the two
orderings can differ, since the stable sort preserves each run's own
discovery order — see the counterexample.) -/
theorem rrf_commutativity_amended (L1 L2 : List Item) :
    (∀ c, idScore (rrf_fuse [L1, L2] 60) c = idScore (rrf_fuse [L2, L1] 60) c)
    ∧ (∀ c, (∃ it ∈ rrf_fuse [L1, L2] 60, it.id = c)
          ↔ ∃ it ∈ rrf_fuse [L2, L1] 60, it.id = c)
    ∧ ((∀ it1 ∈ rrf_fuse [L1, L2] 60, ∀ it2 ∈ rrf_fuse [L1, L2] 60,
          it1.id ≠ it2.id → it1.score ≠ it2.score) →
        (rrf_fuse [L1, L2] 60).map Item.id = (rrf_fuse [L2, L1] 60).map Item.id) := by
  obtain ⟨nd₁, hsc₁, hmem₁, hsort₁⟩ := rrf_fuse_char [L1, L2] 60
  obtain ⟨nd₂, hsc₂, hmem₂, hsort₂⟩ := rrf_fuse_char [L2, L1] 60
  have hscore : ∀ c, rrfScore 60 [L1, L2] c = rrfScore 60 [L2, L1] c := by
    intro c
    simp only [rrfScore, List.map_cons, List.map_nil, List.sum_cons, List.sum_nil]
    ring
  have happ : ∀ c, (∃ l ∈ [L1, L2], ∃ it ∈ l, it.id = c)
      ↔ (∃ l ∈ [L2, L1], ∃ it ∈ l, it.id = c) := by
    intro c
    simp only [List.mem_cons, List.not_mem_nil, or_false]
    constructor <;> rintro ⟨l, hl, hit⟩ <;> exact ⟨l, by tauto, hit⟩
  have hmemiff : ∀ c, (∃ it ∈ rrf_fuse [L1, L2] 60, it.id = c)
      ↔ (∃ it ∈ rrf_fuse [L2, L1] 60, it.id = c) := by
    intro c
    rw [hmem₁ c, hmem₂ c]
    exact happ c
  refine ⟨?_, hmemiff, ?_⟩
  · intro c
    rw [idScore_rrf_fuse, idScore_rrf_fuse]
    by_cases h : ∃ l ∈ [L1, L2], ∃ it ∈ l, it.id = c
    · rw [if_pos h, if_pos ((happ c).mp h), hscore]
    · rw [if_neg h, if_neg (fun hh => h ((happ c).mpr hh))]
  · intro H
    have H₂ : ∀ it1 ∈ rrf_fuse [L2, L1] 60, ∀ it2 ∈ rrf_fuse [L2, L1] 60,
        it1.id ≠ it2.id → it1.score ≠ it2.score := by
      intro it1 h1 it2 h2 hne
      obtain ⟨jt1, hj1, hjd1⟩ := (hmem₁ it1.id).mpr ((happ it1.id).mpr ((hmem₂ it1.id).mp ⟨it1, h1, rfl⟩))
      obtain ⟨jt2, hj2, hjd2⟩ := (hmem₁ it2.id).mpr ((happ it2.id).mpr ((hmem₂ it2.id).mp ⟨it2, h2, rfl⟩))
      have hne' : jt1.id ≠ jt2.id := by rw [hjd1, hjd2]; exact hne
      have hs := H jt1 hj1 jt2 hj2 hne'
      rw [(hsc₁ jt1 hj1).1, (hsc₁ jt2 hj2).1, hjd1, hjd2, hscore, hscore] at hs
      rw [(hsc₂ it1 h1).1, (hsc₂ it2 h2).1]
      exact hs
    have hfst₁ : ((rrf_fuse [L1, L2] 60).map (fun it => (it.id, it.score))).map Prod.fst
        = (rrf_fuse [L1, L2] 60).map Item.id := by
      simp [List.map_map, Function.comp]
    have hfst₂ : ((rrf_fuse [L2, L1] 60).map (fun it => (it.id, it.score))).map Prod.fst
        = (rrf_fuse [L2, L1] 60).map Item.id := by
      simp [List.map_map, Function.comp]
    have hndp₁ : ((rrf_fuse [L1, L2] 60).map (fun it => (it.id, it.score))).Nodup :=
      List.Nodup.of_map Prod.fst (by rw [hfst₁]; exact nd₁)
    have hndp₂ : ((rrf_fuse [L2, L1] 60).map (fun it => (it.id, it.score))).Nodup :=
      List.Nodup.of_map Prod.fst (by rw [hfst₂]; exact nd₂)
    have hchar₁ : ∀ q : String × ℚ,
        q ∈ (rrf_fuse [L1, L2] 60).map (fun it => (it.id, it.score))
          ↔ ((∃ l ∈ [L1, L2], ∃ it ∈ l, it.id = q.1) ∧ q.2 = rrfScore 60 [L1, L2] q.1) := by
      intro q
      constructor
      · intro hq
        obtain ⟨it, hit, rfl⟩ := List.mem_map.1 hq
        exact ⟨(hmem₁ it.id).mp ⟨it, hit, rfl⟩, (hsc₁ it hit).1⟩
      · rintro ⟨ha, hs⟩
        obtain ⟨it, hit, hid⟩ := (hmem₁ q.1).mpr ha
        refine List.mem_map.2 ⟨it, hit, ?_⟩
        have : it.score = q.2 := by rw [(hsc₁ it hit).1, hid, ← hs]
        exact Prod.ext hid this
    have hchar₂ : ∀ q : String × ℚ,
        q ∈ (rrf_fuse [L2, L1] 60).map (fun it => (it.id, it.score))
          ↔ ((∃ l ∈ [L1, L2], ∃ it ∈ l, it.id = q.1) ∧ q.2 = rrfScore 60 [L1, L2] q.1) := by
      intro q
      constructor
      · intro hq
        obtain ⟨it, hit, rfl⟩ := List.mem_map.1 hq
        refine ⟨(happ it.id).mpr ((hmem₂ it.id).mp ⟨it, hit, rfl⟩), ?_⟩
        rw [(hsc₂ it hit).1, hscore]
      · rintro ⟨ha, hs⟩
        obtain ⟨it, hit, hid⟩ := (hmem₂ q.1).mpr ((happ q.1).mp ha)
        refine List.mem_map.2 ⟨it, hit, ?_⟩
        have : it.score = q.2 := by rw [(hsc₂ it hit).1, hid, ← hscore, ← hs]
        exact Prod.ext hid this
    have hperm : List.Perm ((rrf_fuse [L1, L2] 60).map (fun it => (it.id, it.score)))
        ((rrf_fuse [L2, L1] 60).map (fun it => (it.id, it.score))) := by
      refine (List.perm_ext_iff_of_nodup hndp₁ hndp₂).mpr ?_
      intro q
      rw [hchar₁ q, hchar₂ q]
    have hidpair_one : (rrf_fuse [L1, L2] 60).Pairwise (fun a b => a.id ≠ b.id) :=
      List.pairwise_map.mp nd₁
    have hidpair_two : (rrf_fuse [L2, L1] 60).Pairwise (fun a b => a.id ≠ b.id) :=
      List.pairwise_map.mp nd₂
    have hstrict₁ : (rrf_fuse [L1, L2] 60).Pairwise (fun a b => b.score < a.score) := by
      have hand := List.Pairwise.and (hsort₁ : List.Pairwise _ _) hidpair_one
      refine hand.imp_of_mem ?_
      intro a b ha hb hab
      exact lt_of_le_of_ne hab.1 (fun he => H a ha b hb hab.2 he.symm)
    have hstrict₂ : (rrf_fuse [L2, L1] 60).Pairwise (fun a b => b.score < a.score) := by
      have hand := List.Pairwise.and (hsort₂ : List.Pairwise _ _) hidpair_two
      refine hand.imp_of_mem ?_
      intro a b ha hb hab
      exact lt_of_le_of_ne hab.1 (fun he => H₂ a ha b hb hab.2 he.symm)
    have hpairs : (rrf_fuse [L1, L2] 60).map (fun it => (it.id, it.score))
        = (rrf_fuse [L2, L1] 60).map (fun it => (it.id, it.score)) :=
      @List.eq_of_perm_of_sorted (String × ℚ) (fun p q => q.2 < p.2) _ _ _ hperm
        (List.pairwise_map.mpr hstrict₁) (List.pairwise_map.mpr hstrict₂)
    rw [← hfst₁, ← hfst₂, hpairs]

end TCG

namespace TCG

theorem rrf_commutativity_amended_witness :
    (rrf_fuse [[⟨"a", 0, none⟩, ⟨"b", 0, none⟩], [⟨"a", 0, none⟩]] 60).map Item.id
      = (rrf_fuse [[⟨"a", 0, none⟩], [⟨"a", 0, none⟩, ⟨"b", 0, none⟩]] 60).map Item.id := by
  apply (rrf_commutativity_amended [⟨"a", 0, none⟩, ⟨"b", 0, none⟩] [⟨"a", 0, none⟩]).2.2
  have heval : rrf_fuse [[⟨"a", 0, none⟩, ⟨"b", 0, none⟩], [⟨"a", 0, none⟩]] 60
      = [⟨"a", 2/61, none⟩, ⟨"b", 1/62, none⟩] := by
    norm_num [rrf_fuse, fuseList, addScore, keepFirst, alookup, sortDesc,
      List.insertionSort, List.orderedInsert]
  rw [heval]
  intro it1 h1 it2 h2 hne
  rcases List.mem_cons.1 h1 with rfl | h1' <;> rcases List.mem_cons.1 h2 with rfl | h2'
  · exact absurd rfl hne
  · rw [List.mem_singleton] at h2'
    subst h2'
    norm_num
  · rw [List.mem_singleton] at h1'
    subst h1'
    norm_num
  · rw [List.mem_singleton] at h1' h2'
    subst h1'; subst h2'
    exact absurd rfl hne

end TCG

/-! ### C3, C8 -/

namespace TCG

theorem snippet_length (t : String) : (t ++ "\n").length = t.length + 1 := by
  have hone : ("\n" : String).length = 1 := rfl
  rw [String.length_append, hone]

theorem packLoop_pos (maxc : ℕ) (hits : List Item) :
    ∀ total, 0 < total →
      packLoop maxc total hits = specGreedyRest maxc total (hitTexts hits) := by
  induction hits with
  | nil => intro total ht; simp [packLoop, hitTexts, specGreedyRest]
  | cons h rest ih =>
    intro total ht
    by_cases he : pyStrip (h.text.getD "") = ""
    · simp only [packLoop, hitTexts, if_pos he]
      exact ih total ht
    · simp only [packLoop, hitTexts, if_neg he, specGreedyRest]
      by_cases hc : total + ((pyStrip (h.text.getD "")).length + 1) > maxc
      · rw [if_pos (by rw [snippet_length]; exact ⟨hc, ht⟩), if_pos hc]
      · rw [if_neg (by rw [snippet_length]; exact fun hand => hc hand.1), if_neg hc,
          snippet_length]
        rw [ih (total + ((pyStrip (h.text.getD "")).length + 1))
          (Nat.lt_of_lt_of_le ht (Nat.le_add_right _ _))]

theorem packLoop_zero (maxc : ℕ) (hits : List Item) :
    packLoop maxc 0 hits = specGreedyPack maxc (hitTexts hits) := by
  induction hits with
  | nil => simp [packLoop, hitTexts, specGreedyPack]
  | cons h rest ih =>
    by_cases he : pyStrip (h.text.getD "") = ""
    · simp only [packLoop, hitTexts, if_pos he]
      exact ih
    · simp only [packLoop, hitTexts, if_neg he, specGreedyPack]
      rw [if_neg (fun hand => Nat.lt_irrefl 0 hand.2)]
      rw [snippet_length, Nat.zero_add]
      rw [packLoop_pos maxc rest _ (Nat.succ_pos _)]

/-- C3: `_pack_context` packs exactly greedily — it appends the non-empty
stripped hit texts in order, stops before the first text whose addition
would push the accumulated size past `max_chars`, except that the first
non-empty text is always included; hence with at least one non-empty hit
and `max_chars = 1` the packed context still contains a snippet beyond the
header. -/
theorem pack_context_greedy_and_nonempty :
    (∀ (hits : List Item) (maxc : ℕ),
        packLoop maxc 0 hits = specGreedyPack maxc (hitTexts hits))
    ∧ (∀ hits : List Item, hitTexts hits ≠ [] →
        packLoop 1 0 hits ≠ [] ∧ pack_context hits 1 ≠ "CONTEXT SNIPPETS:") := by
  constructor
  · exact fun hits maxc => packLoop_zero maxc hits
  · intro hits hne
    cases hl : hitTexts hits with
    | nil => exact absurd hl hne
    | cons t ts =>
      have h0 : packLoop 1 0 hits = (t ++ "\n") :: specGreedyRest 1 (t.length + 1) ts := by
        rw [packLoop_zero, hl, specGreedyPack]
      constructor
      · rw [h0]; exact List.cons_ne_nil _ _
      · rw [pack_context, h0]
        intro hcontra
        have hlen := congrArg String.length hcontra
        have hone : ("\n" : String).length = 1 := rfl
        simp only [joinLines, String.length_append, hone] at hlen
        omega

theorem pack_context_greedy_and_nonempty_witness :
    packLoop 1 0 [⟨"w", 0, some "hello"⟩] ≠ []
    ∧ pack_context [⟨"w", 0, some "hello"⟩] 1 ≠ "CONTEXT SNIPPETS:" :=
  pack_context_greedy_and_nonempty.2 [⟨"w", 0, some "hello"⟩] (by decide)

theorem packLoop_text_only (maxc : ℕ) (hits₁ : List Item) :
    ∀ (hits₂ : List Item) (total : ℕ),
      hits₁.map Item.text = hits₂.map Item.text →
      packLoop maxc total hits₁ = packLoop maxc total hits₂ := by
  induction hits₁ with
  | nil =>
    intro hits₂ total h
    cases hits₂ with
    | nil => rfl
    | cons b t₂ => simp at h
  | cons a t ih =>
    intro hits₂ total h
    cases hits₂ with
    | nil => simp at h
    | cons b t₂ =>
      simp only [List.map_cons, List.cons.injEq] at h
      obtain ⟨hab, ht⟩ := h
      simp only [packLoop, hab]
      by_cases he : pyStrip (b.text.getD "") = ""
      · rw [if_pos he, if_pos he]
        exact ih t₂ total ht
      · rw [if_neg he, if_neg he]
        by_cases hc : total + (pyStrip (b.text.getD "") ++ "\n").length > maxc ∧ total > 0
        · rw [if_pos hc, if_pos hc]
        · rw [if_neg hc, if_neg hc, ih t₂ _ ht]

/-- C8: the packed context block is a function of the hit texts alone — two
hit lists with pairwise-equal texts but arbitrarily different ids (and
scores) pack to the identical string, so generation never sees retrieval
ids. -/
theorem pack_context_id_free :
    ∀ (hits₁ hits₂ : List Item) (maxc : ℕ),
      hits₁.map Item.text = hits₂.map Item.text →
      pack_context hits₁ maxc = pack_context hits₂ maxc := by
  intro h1 h2 maxc h
  unfold pack_context
  rw [packLoop_text_only maxc h1 h2 0 h]

theorem pack_context_id_free_witness :
    pack_context [⟨"id1", 0, some "x"⟩] 6000 = pack_context [⟨"id2", 5, some "x"⟩] 6000 :=
  pack_context_id_free _ _ 6000 (by decide)

end TCG

/-! ### C7 -/

namespace TCG

/-- C7: the orchestrator's retrieval-depth policy: `concise → 3`,
`detailed → 8`, `exam-prep → 5`, and any other style `→ 8`. -/
theorem final_k_policy :
    styleFinalK "concise" = 3 ∧ styleFinalK "detailed" = 8 ∧ styleFinalK "exam-prep" = 5
    ∧ ∀ s, s ≠ "concise" → s ≠ "detailed" → s ≠ "exam-prep" → styleFinalK s = 8 := by
  refine ⟨by decide, by decide, by decide, ?_⟩
  intro s h1 h2 h3
  simp [styleFinalK, h1, h2, h3]

theorem final_k_policy_witness :
    ("casual" ≠ "concise" ∧ "casual" ≠ "detailed" ∧ "casual" ≠ "exam-prep")
    ∧ styleFinalK "casual" = 8 :=
  ⟨⟨by decide, by decide, by decide⟩,
    final_k_policy.2.2.2 "casual" (by decide) (by decide) (by decide)⟩

end TCG

/-! ### C5 -/

namespace TCG

/-- C5 counterexample: when both parses fail, the error raised is the fixed
`ValueError` message `"LLM did not return valid JSON."`, which names no
objective — in particular none of `notes`, `summary`, `mcqs` occurs in it
(the real `json.loads` likewise fails on `"no json here"`). -/
theorem json_sanitize_cex :
    json_sanitize loadsAlwaysFail "no json here" = Except.error invalidJsonMsg
    ∧ ¬ List.IsInfix "notes".data invalidJsonMsg.data
    ∧ ¬ List.IsInfix "summary".data invalidJsonMsg.data
    ∧ ¬ List.IsInfix "mcqs".data invalidJsonMsg.data :=
  ⟨rfl, by decide, by decide, by decide⟩

/-- C5 amended: `_json_sanitize` parses strictly first; if that fails it
re-parses the substring from the first `\x7b` to the last `\x7d` (when the
former strictly precedes the latter), returning that parse's own result —
including its own failure; otherwise it raises a `ValueError` whose fixed
message does not name the objective being generated. -/
theorem json_sanitize_repair :
    (∀ loads s j, loads s = Except.ok j → json_sanitize loads s = Except.ok j)
    ∧ (∀ loads s e st en, loads s = Except.error e →
        findIdx '\x7b' s.data = some st → rfindIdx '\x7d' s.data = some en → st < en →
        json_sanitize loads s = loads (String.mk ((s.data.drop st).take (en + 1 - st))))
    ∧ (∀ loads s e, loads s = Except.error e →
        (∀ st en, findIdx '\x7b' s.data = some st → rfindIdx '\x7d' s.data = some en →
          ¬ st < en) →
        json_sanitize loads s = Except.error invalidJsonMsg)
    ∧ (¬ List.IsInfix "notes".data invalidJsonMsg.data
       ∧ ¬ List.IsInfix "summary".data invalidJsonMsg.data
       ∧ ¬ List.IsInfix "mcqs".data invalidJsonMsg.data) := by
  refine ⟨?_, ?_, ?_, by decide, by decide, by decide⟩
  · intro loads s j h
    simp [json_sanitize, h]
  · intro loads s e st en hl hf hr hlt
    simp [json_sanitize, hl, hf, hr, hlt]
  · intro loads s e hl hnone
    simp only [json_sanitize, hl]
    cases hf : findIdx '\x7b' s.data with
    | none => rfl
    | some st =>
      cases hr : rfindIdx '\x7d' s.data with
      | none => rfl
      | some en =>
        show (if st < en then loads (String.mk ((s.data.drop st).take (en + 1 - st)))
            else Except.error invalidJsonMsg) = Except.error invalidJsonMsg
        rw [if_neg (hnone st en hf hr)]

theorem json_sanitize_repair_witness :
    json_sanitize loadsRepair "xx\x7b\"a\": 1\x7dyy" = Except.ok (Json.obj [("a", Json.num 1)]) := by
  have h := json_sanitize_repair.2.1 loadsRepair "xx\x7b\"a\": 1\x7dyy"
    "Expecting value: line 1 column 1 (char 0)" 2 9 rfl (by decide) (by decide) (by decide)
  exact h

end TCG

/-! ### C2 -/

namespace TCG

/-- C2: with a configured API key and a non-empty query list, when retrieval
returns zero hits `generate_all` succeeds with the fixed scaffold — notes and
summary blocks carry `summary = "insufficient information"` and empty
`key_points` (plus empty `sections`/`glossary`/`misconceptions` for notes),
the mcqs block carries empty `questions` — and the result is the same for
every LLM and every JSON parser, i.e. the LLM backend is never consulted. -/
theorem generate_all_scaffold :
    ∀ (llm₁ llm₂ : String → String → String) (loads₁ loads₂ : String → Except String Json)
      (embed : List String → List (List ℚ)) (pq : List ℚ → String → ℕ → Bool → List Item)
      (cfg : Cfg) (ns : String) (topic : TopicArg) (queries : List String)
      (level style language : String) (fk maxc : ℕ) (mn : Option String) (mc : ℕ),
      cfg.googleApiKey ≠ "" →
      queries ≠ [] →
      retrieve_from_queries embed pq ns queries 5 fk true = [] →
      (generate_all llm₁ loads₁ embed pq cfg ns topic queries level style language fk maxc mn mc
          = Except.ok (scaffold_result (topicStr topic) level language style)
        ∧ generate_all llm₁ loads₁ embed pq cfg ns topic queries level style language fk maxc mn mc
          = generate_all llm₂ loads₂ embed pq cfg ns topic queries level style language fk maxc mn mc
        ∧ getField2 (scaffold_result (topicStr topic) level language style) "notes" "summary"
          = some (Json.str "insufficient information")
        ∧ getField2 (scaffold_result (topicStr topic) level language style) "notes" "key_points"
          = some (Json.arr [])
        ∧ getField2 (scaffold_result (topicStr topic) level language style) "notes" "sections"
          = some (Json.arr [])
        ∧ getField2 (scaffold_result (topicStr topic) level language style) "notes" "glossary"
          = some (Json.arr [])
        ∧ getField2 (scaffold_result (topicStr topic) level language style) "notes"
            "misconceptions" = some (Json.arr [])
        ∧ getField2 (scaffold_result (topicStr topic) level language style) "summary" "summary"
          = some (Json.str "insufficient information")
        ∧ getField2 (scaffold_result (topicStr topic) level language style) "summary" "key_points"
          = some (Json.arr [])
        ∧ getField2 (scaffold_result (topicStr topic) level language style) "mcqs" "questions"
          = some (Json.arr [])) := by
  intro llm₁ llm₂ loads₁ loads₂ embed pq cfg ns topic queries level style language fk maxc mn mc
    hkey hq hret
  have hall : ∀ (llm : String → String → String) (loads : String → Except String Json),
      generate_all llm loads embed pq cfg ns topic queries level style language fk maxc mn mc
        = Except.ok (scaffold_result (topicStr topic) level language style) := by
    intro llm loads
    unfold generate_all
    rw [if_neg hkey]
    simp only [hret, if_true]
  exact ⟨hall llm₁ loads₁, (hall llm₁ loads₁).trans (hall llm₂ loads₂).symm,
    rfl, rfl, rfl, rfl, rfl, rfl, rfl, rfl⟩

theorem generate_all_scaffold_witness :
    (("key" : String) ≠ "" ∧ (["q"] : List String) ≠ []
      ∧ retrieve_from_queries wEmbed wPq "ns" ["q"] 5 8 true = [])
    ∧ generate_all wLlm wLoads wEmbed wPq ⟨"key", none⟩ "ns" (TopicArg.str "T") ["q"]
        "beginner" "concise" "en" 8 6000 none 4
      = Except.ok (scaffold_result "T" "beginner" "en" "concise") := by
  refine ⟨⟨by decide, by decide, rfl⟩, ?_⟩
  exact (generate_all_scaffold wLlm wLlm wLoads wLoads wEmbed wPq ⟨"key", none⟩ "ns"
    (TopicArg.str "T") ["q"] "beginner" "concise" "en" 8 6000 none 4
    (by decide) (by decide) rfl).1

end TCG

/-! ### C6 -/

namespace TCG

theorem alookup_setdefault (kvs : List (String × Json)) (key : String) (v : Json) (c : String) :
    alookup (setdefaultKvs kvs key v) c
      = if c = key then (alookup kvs c).orElse (fun _ => some v) else alookup kvs c := by
  unfold setdefaultKvs
  by_cases hs : (alookup kvs key).isSome = true
  · rw [if_pos hs]
    by_cases hc : c = key
    · subst hc
      obtain ⟨w, hw⟩ := Option.isSome_iff_exists.mp hs
      simp [hw, Option.some_orElse']
    · rw [if_neg hc]
  · rw [if_neg hs, alookup_append]
    by_cases hc : c = key
    · subst hc
      simp [alookup]
    · simp [alookup, hc, Ne.symm hc, Option.orElse_none']

theorem orElse_some_isSome (o : Option Json) (v : Json) :
    ((o.orElse (fun _ => some v)).isSome) = true := by
  cases o <;> simp [Option.some_orElse', Option.none_orElse']

/-- C6 amended: after parsing each objective's LLM output, `generate_all`
fills `topic`, `objective`, `level`, `language`, `style` via `setdefault` —
an omitted field receives the pipeline's requested value but a
model-supplied value is retained (so a block's `objective` field can differ
from its objective name); consequently every successful result carries all
five fields on each of the three blocks. -/
theorem generate_all_backfill :
    (∀ (kvs : List (String × Json)) (objective t l lang s : String),
        alookup (backfillKvs kvs objective t l lang s) "topic"
          = (alookup kvs "topic").orElse (fun _ => some (Json.str t))
      ∧ alookup (backfillKvs kvs objective t l lang s) "objective"
          = (alookup kvs "objective").orElse (fun _ => some (Json.str objective))
      ∧ alookup (backfillKvs kvs objective t l lang s) "level"
          = (alookup kvs "level").orElse (fun _ => some (Json.str l))
      ∧ alookup (backfillKvs kvs objective t l lang s) "language"
          = (alookup kvs "language").orElse (fun _ => some (Json.str lang))
      ∧ alookup (backfillKvs kvs objective t l lang s) "style"
          = (alookup kvs "style").orElse (fun _ => some (Json.str s)))
    ∧ (∀ (llm : String → String → String) (loads : String → Except String Json)
        (embed : List String → List (List ℚ)) (pq : List ℚ → String → ℕ → Bool → List Item)
        (cfg : Cfg) (ns : String) (topic : TopicArg) (queries : List String)
        (lvl sty lang : String) (fk maxc : ℕ) (mn : Option String) (mc : ℕ) (res : Json),
        generate_all llm loads embed pq cfg ns topic queries lvl sty lang fk maxc mn mc
          = Except.ok res →
        ∀ f, f ∈ (["topic", "objective", "level", "language", "style"] : List String) →
          (getField2 res "notes" f).isSome = true
          ∧ (getField2 res "summary" f).isSome = true
          ∧ (getField2 res "mcqs" f).isSome = true) := by
  constructor
  · intro kvs objective t l lang s
    refine ⟨?_, ?_, ?_, ?_, ?_⟩ <;>
      simp [backfillKvs, alookup_setdefault]
  · intro llm loads embed pq cfg ns topic queries lvl sty lang fk maxc mn mc res h f hf
    simp only [generate_all] at h
    split at h
    · exact absurd h (by simp)
    · split at h
      · -- scaffold branch
        have hres : scaffold_result (topicStr topic) lvl lang sty = res := by
          injection h
        subst hres
        simp only [List.mem_cons, List.not_mem_nil, or_false] at hf
        rcases hf with rfl | rfl | rfl | rfl | rfl <;> exact ⟨rfl, rfl, rfl⟩
      · -- LLM branch
        split at h
        · exact absurd h (by simp)
        · split at h
          · exact absurd h (by simp)
          · split at h
            · exact absurd h (by simp)
            · rename_i notes hnotes summary hsummary mcqs hmcqs
              split at h
              · exact absurd h (by simp)
              · rename_i notes2 hnotes2
                split at h
                · exact absurd h (by simp)
                · rename_i summary2 hsummary2
                  split at h
                  · exact absurd h (by simp)
                  · rename_i mcqs2 hmcqs2
                    have hres : Json.obj
                        [("topic", Json.str (topicStr topic)), ("level", Json.str lvl),
                          ("language", Json.str lang), ("style", Json.str sty),
                          ("notes", notes2), ("summary", summary2), ("mcqs", mcqs2)] = res := by
                      injection h
                    subst hres
                    obtain ⟨nk, rfl⟩ : ∃ nk, notes2 = Json.obj (backfillKvs nk "notes"
                        (topicStr topic) lvl lang sty) := by
                      unfold backfill at hnotes2
                      split at hnotes2
                      · exact ⟨_, by injection hnotes2 with h2; exact h2.symm⟩
                      · exact absurd hnotes2 (by simp)
                    obtain ⟨sk, rfl⟩ : ∃ sk, summary2 = Json.obj (backfillKvs sk "summary"
                        (topicStr topic) lvl lang sty) := by
                      unfold backfill at hsummary2
                      split at hsummary2
                      · exact ⟨_, by injection hsummary2 with h2; exact h2.symm⟩
                      · exact absurd hsummary2 (by simp)
                    obtain ⟨mk, rfl⟩ : ∃ mk, mcqs2 = Json.obj (backfillKvs mk "mcqs"
                        (topicStr topic) lvl lang sty) := by
                      unfold backfill at hmcqs2
                      split at hmcqs2
                      · exact ⟨_, by injection hmcqs2 with h2; exact h2.symm⟩
                      · exact absurd hmcqs2 (by simp)
                    simp only [List.mem_cons, List.not_mem_nil, or_false] at hf
                    rcases hf with rfl | rfl | rfl | rfl | rfl <;>
                      exact ⟨by simp [getField2, getField, alookup, backfillKvs,
                          alookup_setdefault, orElse_some_isSome],
                        by simp [getField2, getField, alookup, backfillKvs,
                          alookup_setdefault, orElse_some_isSome],
                        by simp [getField2, getField, alookup, backfillKvs,
                          alookup_setdefault, orElse_some_isSome]⟩

end TCG

namespace TCG

/-- C6 counterexample: with an LLM whose parsed output already carries
`"objective": "bogus"`, `generate_all` succeeds and the notes block's
`objective` field stays `"bogus"` — `setdefault` does not force-set the
field, so the block does not carry the pipeline's requested value
`"notes"`. -/
theorem generate_all_backfill_cex :
    ((exceptToOption (generate_all cexLlm cexLoads cexEmbed cexPq ⟨"key", none⟩ "ns"
        (TopicArg.str "T") ["q"] "beginner" "concise" "en" 8 6000 none 4)).bind
      (fun r => getField2 r "notes" "objective")) = some (Json.str "bogus")
    ∧ Json.str "bogus" ≠ Json.str "notes" := by
  constructor
  · rfl
  · intro hcontra
    injection hcontra with h
    exact absurd h (by decide)

theorem generate_all_backfill_witness :
    (getField2 (scaffold_result "T" "beginner" "en" "concise") "notes" "topic").isSome = true
    ∧ (getField2 (scaffold_result "T" "beginner" "en" "concise") "summary" "topic").isSome = true
    ∧ (getField2 (scaffold_result "T" "beginner" "en" "concise") "mcqs" "topic").isSome = true :=
  generate_all_backfill.2 wLlm wLoads wEmbed wPq ⟨"key", none⟩ "ns" (TopicArg.str "T") ["q"]
    "beginner" "concise" "en" 8 6000 none 4 (scaffold_result "T" "beginner" "en" "concise")
    rfl "topic" (by decide)

end TCG

/-! ### C10 lemmas -/

namespace TCG

theorem wordsAux_mem (l : List Char) :
    ∀ (cur : List Char), (∀ c ∈ cur, pyIsWs c = false) →
      ∀ w ∈ wordsAux cur l, w ≠ [] ∧ ∀ c ∈ w, pyIsWs c = false ∧ (c ∈ cur ∨ c ∈ l) := by
  induction l with
  | nil =>
    intro cur hcur w hw
    simp only [wordsAux] at hw
    by_cases hc : cur = []
    · simp [hc] at hw
    · rw [if_neg hc] at hw
      rw [List.mem_singleton] at hw
      subst hw
      refine ⟨by simpa using hc, ?_⟩
      intro c hcrev
      rw [List.mem_reverse] at hcrev
      exact ⟨hcur c hcrev, Or.inl hcrev⟩
  | cons a rest ih =>
    intro cur hcur w hw
    simp only [wordsAux] at hw
    by_cases ha : pyIsWs a = true
    · rw [if_pos ha] at hw
      by_cases hc : cur = []
      · rw [if_pos hc] at hw
        obtain ⟨h1, h2⟩ := ih [] (by simp) w hw
        refine ⟨h1, fun c hcw => ?_⟩
        have := (h2 c hcw).2.resolve_left (by simp)
        exact ⟨(h2 c hcw).1, Or.inr (List.mem_cons_of_mem _ this)⟩
      · rw [if_neg hc] at hw
        rcases List.mem_cons.1 hw with rfl | hw'
        · refine ⟨by simpa using hc, ?_⟩
          intro c hcw
          rw [List.mem_reverse] at hcw
          exact ⟨hcur c hcw, Or.inl hcw⟩
        · obtain ⟨h1, h2⟩ := ih [] (by simp) w hw'
          refine ⟨h1, fun c hcw => ?_⟩
          have := (h2 c hcw).2.resolve_left (by simp)
          exact ⟨(h2 c hcw).1, Or.inr (List.mem_cons_of_mem _ this)⟩
    · rw [if_neg ha] at hw
      have hcur' : ∀ c ∈ a :: cur, pyIsWs c = false := by
        intro c hc
        rcases List.mem_cons.1 hc with rfl | hc'
        · simpa using ha
        · exact hcur c hc'
      obtain ⟨h1, h2⟩ := ih (a :: cur) hcur' w hw
      refine ⟨h1, fun c hcw => ?_⟩
      obtain ⟨hws, hmem⟩ := h2 c hcw
      rcases hmem with hmc | hmr
      · rcases List.mem_cons.1 hmc with rfl | hc'
        · exact ⟨hws, Or.inr (List.mem_cons_self _ _)⟩
        · exact ⟨hws, Or.inl hc'⟩
      · exact ⟨hws, Or.inr (List.mem_cons_of_mem _ hmr)⟩

theorem words_mem (l : List Char) :
    ∀ w ∈ words l, w ≠ [] ∧ ∀ c ∈ w, pyIsWs c = false ∧ c ∈ l := by
  intro w hw
  obtain ⟨h1, h2⟩ := wordsAux_mem l [] (by simp) w hw
  refine ⟨h1, fun c hcw => ?_⟩
  obtain ⟨hws, hmem⟩ := h2 c hcw
  exact ⟨hws, hmem.resolve_left (by simp)⟩

theorem mem_joinWords (ws : List (List Char)) :
    ∀ c ∈ joinWords ws, c = ' ' ∨ ∃ w ∈ ws, c ∈ w := by
  induction ws with
  | nil => simp [joinWords]
  | cons w ws ih =>
    cases ws with
    | nil =>
      intro c hc
      simp only [joinWords] at hc
      exact Or.inr ⟨w, by simp, hc⟩
    | cons w2 ws2 =>
      intro c hc
      simp only [joinWords] at hc
      rcases List.mem_append.1 hc with h | h
      · exact Or.inr ⟨w, List.mem_cons_self _ _, h⟩
      · rcases List.mem_cons.1 h with rfl | h'
        · exact Or.inl rfl
        · rcases ih c h' with h'' | ⟨w', hw', hcw'⟩
          · exact Or.inl h''
          · exact Or.inr ⟨w', List.mem_cons_of_mem _ hw', hcw'⟩

theorem wordsAux_append_word (w : List Char) :
    (∀ c ∈ w, pyIsWs c = false) →
    ∀ (cur l : List Char), wordsAux cur (w ++ l) = wordsAux (w.reverse ++ cur) l := by
  induction w with
  | nil => intro _ cur l; simp
  | cons a t ih =>
    intro hw cur l
    simp only [List.cons_append, wordsAux, List.append_eq]
    rw [if_neg (by simp [hw a (List.mem_cons_self _ _)])]
    rw [ih (fun c hc => hw c (List.mem_cons_of_mem _ hc)) (a :: cur) l]
    congr 1
    simp [List.reverse_cons, List.append_assoc]

theorem words_joinWords (ws : List (List Char)) :
    (∀ w ∈ ws, w ≠ [] ∧ ∀ c ∈ w, pyIsWs c = false) →
    words (joinWords ws) = ws := by
  induction ws with
  | nil => intro _; simp [words, joinWords, wordsAux]
  | cons w ws' ih =>
    intro h
    obtain ⟨hne, hfree⟩ := h w (List.mem_cons_self _ _)
    cases ws' with
    | nil =>
      show wordsAux [] (joinWords [w]) = [w]
      have : joinWords [w] = w ++ [] := by simp [joinWords]
      rw [this, wordsAux_append_word w hfree [] []]
      simp only [wordsAux, List.append_nil]
      rw [if_neg (by simpa using hne)]
      simp
    | cons w2 ws2 =>
      show wordsAux [] (joinWords (w :: w2 :: ws2)) = w :: w2 :: ws2
      have hj : joinWords (w :: w2 :: ws2) = w ++ ' ' :: joinWords (w2 :: ws2) := rfl
      rw [hj, wordsAux_append_word w hfree [] (' ' :: joinWords (w2 :: ws2))]
      simp only [wordsAux, List.append_nil]
      rw [if_pos (by decide), if_neg (by simpa using hne)]
      rw [List.reverse_reverse]
      have := ih (fun x hx => h x (List.mem_cons_of_mem _ hx))
      rw [words] at this
      rw [this]

theorem lowerChar_not_upper (c : Char) :
    ¬(65 ≤ (lowerChar c).toNat ∧ (lowerChar c).toNat ≤ 90) := by
  unfold lowerChar
  by_cases h : 65 ≤ c.toNat ∧ c.toNat ≤ 90
  · rw [if_pos h]
    obtain ⟨h1, h2⟩ := h
    set n := c.toNat with hn
    interval_cases n <;> decide
  · rw [if_neg h]
    exact h

theorem lowerStr_not_upper (l : List Char) :
    ∀ c ∈ lowerStr l, ¬(65 ≤ c.toNat ∧ c.toNat ≤ 90) := by
  intro c hc
  obtain ⟨c', _, rfl⟩ := List.mem_map.1 hc
  exact lowerChar_not_upper c'

end TCG

namespace TCG

set_option maxHeartbeats 2000000 in
theorem qStep_good (st : List (List Char) × List (List Char)) (line : List Char)
    (hinv : ∀ q ∈ st.2, q ≠ [] ∧ (words q).length ≤ 9
      ∧ ∀ c ∈ q, ¬(65 ≤ c.toNat ∧ c.toNat ≤ 90)) :
    ∀ q ∈ (qStep st line).2, q ≠ [] ∧ (words q).length ≤ 9
      ∧ ∀ c ∈ q, ¬(65 ≤ c.toNat ∧ c.toNat ≤ 90) := by
  unfold qStep
  by_cases h1 : preQ line = []
  · rw [if_pos h1]; exact hinv
  · rw [if_neg h1]
    by_cases h2 : postQ (preQ line) ∈ st.1
    · rw [if_pos h2]; exact hinv
    · rw [if_neg h2]
      by_cases h3 : (words (postQ (preQ line))).length > 9
      · rw [if_pos h3]
        by_cases h4 : joinWords ((words (postQ (preQ line))).take 9) = []
        · rw [if_pos h4]; exact hinv
        · rw [if_neg h4]
          intro q hq
          rcases List.mem_append.1 hq with h | h
          · exact hinv q h
          · rw [List.mem_singleton] at h
            rw [h]
            have hprops : ∀ w ∈ (words (postQ (preQ line))).take 9,
                w ≠ [] ∧ ∀ c ∈ w, pyIsWs c = false := by
              intro w hw
              have hw' := List.mem_of_mem_take hw
              exact ⟨(words_mem _ w hw').1, fun c hc => ((words_mem _ w hw').2 c hc).1⟩
            refine ⟨h4, ?_, ?_⟩
            · rw [words_joinWords _ hprops]
              exact List.length_take_le _ _
            · intro c hc
              rcases mem_joinWords _ c hc with rfl | ⟨w, hw, hcw⟩
              · decide
              · have hw' := List.mem_of_mem_take hw
                have hcq : c ∈ postQ (preQ line) := ((words_mem _ w hw').2 c hcw).2
                exact lowerStr_not_upper _ c hcq
      · rw [if_neg h3]
        by_cases h4 : postQ (preQ line) = []
        · rw [if_pos h4]; exact hinv
        · rw [if_neg h4]
          intro q hq
          rcases List.mem_append.1 hq with h | h
          · exact hinv q h
          · rw [List.mem_singleton] at h
            rw [h]
            exact ⟨h4, Nat.le_of_not_lt h3, fun c hc => lowerStr_not_upper _ c hc⟩

theorem qFold_good (lines : List (List Char)) :
    ∀ st : List (List Char) × List (List Char),
      (∀ q ∈ st.2, q ≠ [] ∧ (words q).length ≤ 9
        ∧ ∀ c ∈ q, ¬(65 ≤ c.toNat ∧ c.toNat ≤ 90)) →
      ∀ q ∈ (lines.foldl qStep st).2, q ≠ [] ∧ (words q).length ≤ 9
        ∧ ∀ c ∈ q, ¬(65 ≤ c.toNat ∧ c.toNat ≤ 90) := by
  induction lines with
  | nil => intro st h; exact h
  | cons line rest ih => intro st h; exact ih _ (qStep_good st line h)

set_option maxHeartbeats 2000000 in
theorem qStep_nodup (st : List (List Char) × List (List Char)) (line : List Char)
    (htrunc : (words (postQ (preQ line))).length ≤ 9)
    (hnd : st.2.Nodup) (hsub : ∀ q ∈ st.2, q ∈ st.1) :
    (qStep st line).2.Nodup ∧ ∀ q ∈ (qStep st line).2, q ∈ (qStep st line).1 := by
  unfold qStep
  by_cases h1 : preQ line = []
  · rw [if_pos h1]; exact ⟨hnd, hsub⟩
  · rw [if_neg h1]
    by_cases h2 : postQ (preQ line) ∈ st.1
    · rw [if_pos h2]; exact ⟨hnd, hsub⟩
    · rw [if_neg h2, if_neg (Nat.not_lt.mpr htrunc)]
      by_cases h4 : postQ (preQ line) = []
      · rw [if_pos h4]; exact ⟨hnd, hsub⟩
      · rw [if_neg h4]
        constructor
        · rw [List.nodup_append]
          refine ⟨hnd, List.nodup_singleton _, ?_⟩
          intro a ha hb
          rw [List.mem_singleton] at hb
          exact h2 (by rw [← hb]; exact hsub a ha)
        · intro q hq
          rcases List.mem_append.1 hq with h | h
          · exact List.mem_cons_of_mem _ (hsub q h)
          · rw [List.mem_singleton] at h
            rw [h]
            exact List.mem_cons_self _ _

theorem qFold_nodup (lines : List (List Char)) :
    ∀ st : List (List Char) × List (List Char),
      st.2.Nodup → (∀ q ∈ st.2, q ∈ st.1) →
      (∀ line ∈ lines, (words (postQ (preQ line))).length ≤ 9) →
      (lines.foldl qStep st).2.Nodup := by
  induction lines with
  | nil => intro st h _ _; exact h
  | cons line rest ih =>
    intro st hnd hsub hall
    obtain ⟨hnd', hsub'⟩ := qStep_nodup st line (hall line (List.mem_cons_self _ _)) hnd hsub
    exact ih _ hnd' hsub' (fun l hl => hall l (List.mem_cons_of_mem _ hl))

end TCG

/-! ### C10 -/

namespace TCG

/-- C10 counterexample: the dedup check keys on the pre-truncation string,
so the same ten-word line twice yields two identical truncated queries —
the returned queries are not pairwise distinct. -/
theorem generate_queries_distinct_cex :
    generate_queries_from_plan cexQLlm ⟨"key", none⟩ "plan" 8 none
      = Except.ok ["a b c d e f g h i", "a b c d e f g h i"]
    ∧ ¬ (["a b c d e f g h i", "a b c d e f g h i"] : List String).Nodup :=
  ⟨rfl, by decide⟩

/-- C10 amended: a blank plan fails with `"Plan text cannot be empty"`
independently of the LLM (so before any LLM call); for a non-blank plan the
result is the processed LLM answer truncated to the clamped count
`max 3 (min 12 n)`, and every returned query is non-empty, free of ASCII
uppercase, and at most 9 words long; the queries are moreover pairwise
distinct whenever no kept line needed truncation — deduplication keys on
the pre-truncation string, so truncation collisions can create
duplicates. -/
theorem generate_queries_properties :
    (∀ (llm : String → String → Except String String) (cfg : Cfg) (plan : String)
        (n : ℕ) (mn : Option String),
        cfg.googleApiKey ≠ "" → (plan = "" ∨ pyStrip plan = "") →
        generate_queries_from_plan llm cfg plan n mn
          = Except.error "Plan text cannot be empty")
    ∧ (∀ (text : List Char) (m : ℕ),
        (buildQueries text m).length ≤ m
        ∧ ∀ q ∈ buildQueries text m, q ≠ [] ∧ (words q).length ≤ 9
            ∧ ∀ c ∈ q, ¬(65 ≤ c.toNat ∧ c.toNat ≤ 90))
    ∧ (∀ (text : List Char) (m : ℕ),
        (∀ line ∈ splitLines (stripWs text), (words (postQ (preQ line))).length ≤ 9) →
        (buildQueries text m).Nodup)
    ∧ (∀ (llm : String → String → Except String String) (cfg : Cfg) (plan : String)
        (n : ℕ) (mn : Option String) (t : String),
        cfg.googleApiKey ≠ "" → ¬(plan = "" ∨ pyStrip plan = "") →
        llm (pyOrStr mn (cfg.llmModelName.getD "gemini-2.5-flash"))
            ((LLM_PROMPT_TEMPLATE.replace "{n_total}" (toString (max 3 (min 12 n)))).replace
              "{plan_text}" (String.mk (plan.data.take 6000))) = Except.ok t →
        generate_queries_from_plan llm cfg plan n mn
          = Except.ok ((buildQueries (stripWs t.data) (max 3 (min 12 n))).map
              (fun l => String.mk l))) := by
  refine ⟨?_, ?_, ?_, ?_⟩
  · intro llm cfg plan n mn hkey hblank
    unfold generate_queries_from_plan
    rw [if_neg hkey, if_pos hblank]
  · intro text m
    constructor
    · exact List.length_take_le _ _
    · intro q hq
      have hq' := List.mem_of_mem_take hq
      exact qFold_good _ ([], []) (by intro q hq0; exact absurd hq0 (List.not_mem_nil q)) q hq'
  · intro text m hall
    have hnd := qFold_nodup (splitLines (stripWs text)) ([], [])
      List.nodup_nil (by intro q hq0; exact absurd hq0 (List.not_mem_nil q)) hall
    exact (List.take_sublist _ _).nodup hnd
  · intro llm cfg plan n mn t hkey hblank hllm
    unfold generate_queries_from_plan
    rw [if_neg hkey, if_neg hblank]
    unfold gemini_queries
    rw [hllm]

theorem generate_queries_properties_witness :
    generate_queries_from_plan qwLlm ⟨"key", none⟩ "my plan" 8 none
      = Except.ok ["alpha beta"] := by
  have h := generate_queries_properties.2.2.2 qwLlm ⟨"key", none⟩ "my plan" 8 none
    "alpha beta" (by decide) (by decide) rfl
  exact h

end TCG
